import Mathlib

/-!
The header `bits/ioctl-types.h`, Linux/MIPS version: a verification development
for `lib/libc/include/mips-linux-gnu/bits/ioctl-types.h`.

The header has no functions: it is a sequence of preprocessor directives and one
structure declaration.  It is embedded as a state-passing function
`ioctl_types_h` on a translation unit (the macro table and the structure
declarations seen so far), one step per directive of the source:

* `#ifndef _SYS_IOCTL_H` / `#error` / `#endif` becomes a test on the macro table
  that fails with the diagnostic;
* `#include <asm/ioctls.h>` (a kernel header, not part of this file) is a
  parameter of the embedding;
* `struct winsize { ... }` is a declaration outside any directive: its
  identifiers undergo macro replacement, and the tag it declares must not be
  declared already;
* every `#define NAME body` adds an object-like macro.

A missing or failing include file is left to the `asm_ioctls_h` parameter.
-/

namespace IoctlTypes

/-! ## Structure declarations -/

/-- The C types of structure members: the type the header writes, `unsigned
short int`, and any other list of specifiers, kept as its tokens (what a member
type becomes when macro replacement changes one of its tokens). -/
inductive CType where
  | unsigned_short_int
  | specifiers (tokens : List String)
  deriving DecidableEq

/-- One member of a structure declaration: `type name;`. -/
structure Member where
  type : CType
  name : String
  deriving DecidableEq

/-- A structure declaration `struct tag { members };`. -/
structure StructDecl where
  tag : String
  members : List Member
  deriving DecidableEq

/-- The declaration of `struct winsize`, member by member as in the header. -/
def winsize : StructDecl :=
  StructDecl.mk "winsize"
    [ Member.mk CType.unsigned_short_int "ws_row",
      Member.mk CType.unsigned_short_int "ws_col",
      Member.mk CType.unsigned_short_int "ws_xpixel",
      Member.mk CType.unsigned_short_int "ws_ypixel" ]

/-- What the target ABI fixes about the scalar types: the header only names the
type `unsigned short int`; its size and alignment in bytes come from the ABI. -/
structure DataModel where
  sizeof : CType → Nat
  alignof : CType → Nat

/-- Bits per byte (`CHAR_BIT`). -/
def CHAR_BIT : Nat := 8

/-- Largest value of an unsigned type of the given data model. -/
def maxValue (dm : DataModel) (t : CType) : Nat :=
  2 ^ (CHAR_BIT * dm.sizeof t) - 1

/-- Round `off` up to the next multiple of the alignment `a`. -/
def alignUp (off a : Nat) : Nat :=
  (off + a - 1) / a * a

/-- C structure layout: members are placed in declaration order, each at the
first offset at or after the end of the previous member that satisfies its
alignment.  Returns the member offsets, starting to place at `off`. -/
def layoutFrom (dm : DataModel) : Nat → List Member → List (String × Nat)
  | _, [] => []
  | off, m :: ms =>
    (m.name, alignUp off (dm.alignof m.type)) ::
      layoutFrom dm (alignUp off (dm.alignof m.type) + dm.sizeof m.type) ms

/-- The offset just past the last member, starting to place at `off`. -/
def endFrom (dm : DataModel) : Nat → List Member → Nat
  | off, [] => off
  | off, m :: ms => endFrom dm (alignUp off (dm.alignof m.type) + dm.sizeof m.type) ms

/-- Member offsets of a structure. -/
def offsets (dm : DataModel) (d : StructDecl) : List (String × Nat) :=
  layoutFrom dm 0 d.members

/-- Alignment of a structure: the largest alignment among its members. -/
def structAlign (dm : DataModel) (d : StructDecl) : Nat :=
  (d.members.map (fun m => dm.alignof m.type)).foldl max 1

/-- Size of a structure (`sizeof`): the end of the last member, rounded up to the
alignment of the structure. -/
def structSize (dm : DataModel) (d : StructDecl) : Nat :=
  alignUp (endFrom dm 0 d.members) (structAlign dm d)

/-- The padding bytes of a structure: its size minus the sizes of its members. -/
def padding (dm : DataModel) (d : StructDecl) : Nat :=
  structSize dm d - (d.members.map (fun m => dm.sizeof m.type)).sum

/-! ## Macros -/

/-- Replacement list of an object-like macro, as far as the header uses them:
an integer constant or a single identifier. -/
inductive Repl where
  | num (n : Nat)
  | ident (name : String)
  deriving DecidableEq

/-- The macro table, most recent definition first. -/
abbrev MacroEnv := List (String × Repl)

/-- The state of a translation unit while headers are processed: the macros
defined and the structures declared with their members so far. -/
structure TransUnit where
  macros : MacroEnv
  structs : List StructDecl
  deriving DecidableEq

/-- The test of `#ifdef NAME`. -/
def defined (env : MacroEnv) (name : String) : Bool :=
  (env.lookup name).isSome

/-- The directive `#define name body`; a later definition shadows an earlier one. -/
def define (tu : TransUnit) (name : String) (body : Repl) : TransUnit :=
  TransUnit.mk ((name, body) :: tu.macros) tu.structs


/-- Process a block of `#define` lines in source order. -/
def defineAll (defs : List (String × Repl)) (tu : TransUnit) : TransUnit :=
  defs.foldl (fun t d => define t d.1 d.2) tu

/-- Macro expansion of the identifier `name` down to an integer constant, when
it has one: an identifier that is a macro is replaced by its replacement list
and rescanned.  `fuel` bounds the number of replacements. -/
def expand (env : MacroEnv) : Nat → String → Option Nat
  | 0, _ => none
  | fuel + 1, name =>
    match env.lookup name with
    | none => none
    | some (Repl.num n) => some n
    | some (Repl.ident next) => expand env fuel next

/-- The integer a macro name stands for in a macro table.  A chain of
replacements through distinct macros is no longer than the table. -/
def macroValue (env : MacroEnv) (name : String) : Option Nat :=
  expand env (env.length + 1) name

/-- Macro replacement of one identifier token: a token that names a macro is
replaced by the macro's replacement list, which is rescanned; while a macro is
being replaced its own name is not replaced again (`hidden`).  `fuel` bounds the
number of replacements. -/
def rescan (env : MacroEnv) : Nat → List String → String → Repl
  | 0, _, name => Repl.ident name
  | fuel + 1, hidden, name =>
    if name ∈ hidden then Repl.ident name
    else
      match env.lookup name with
      | none => Repl.ident name
      | some (Repl.num n) => Repl.num n
      | some (Repl.ident next) => rescan env fuel (name :: hidden) next

/-- The token an identifier of the program text becomes after macro
replacement.  Every replacement hides one more macro of the table, so the fuel
is never used up. -/
def macroReplace (env : MacroEnv) (name : String) : Repl :=
  rescan env (env.length + 1) [] name

/-- The tokens of a member type, as written. -/
def typeTokens : CType → List String
  | CType.unsigned_short_int => ["unsigned", "short", "int"]
  | CType.specifiers tokens => tokens

/-- The member type a list of specifier tokens stands for. -/
def typeOfTokens (tokens : List String) : CType :=
  if tokens = ["unsigned", "short", "int"] then CType.unsigned_short_int
  else CType.specifiers tokens

/-- Diagnostic for an integer constant where the declaration needs an
identifier. -/
def expected_identifier : String :=
  "expected identifier"

/-- Diagnostic for a declaration that no longer starts with `struct`. -/
def expected_struct : String :=
  "expected struct"

/-- Diagnostic for two members of the same name. -/
def duplicate_member : String :=
  "duplicate member"

/-- Diagnostic for a second definition of a structure tag, followed by the tag. -/
def redefinition_of : String :=
  "redefinition of struct "

/-- A token in a place where the declaration needs an identifier. -/
def expectIdent : Repl → Except String String
  | Repl.ident name => Except.ok name
  | Repl.num _ => Except.error expected_identifier

/-- Macro replacement of a list of identifier tokens that must stay
identifiers. -/
def replaceIdents (env : MacroEnv) : List String → Except String (List String)
  | [] => Except.ok []
  | t :: ts =>
    match expectIdent (macroReplace env t) with
    | Except.error e => Except.error e
    | Except.ok name =>
      match replaceIdents env ts with
      | Except.error e => Except.error e
      | Except.ok names => Except.ok (name :: names)

/-- Macro replacement in the member declarations. -/
def replaceMembers (env : MacroEnv) : List Member → Except String (List Member)
  | [] => Except.ok []
  | m :: ms =>
    match replaceIdents env (typeTokens m.type) with
    | Except.error e => Except.error e
    | Except.ok tokens =>
      match expectIdent (macroReplace env m.name) with
      | Except.error e => Except.error e
      | Except.ok name =>
        match replaceMembers env ms with
        | Except.error e => Except.error e
        | Except.ok rest => Except.ok (Member.mk (typeOfTokens tokens) name :: rest)

/-- The structure declaration that the text of `d` is after macro replacement.
A declaration whose keyword `struct` is replaced declares no structure and is
rejected, as is one with an integer constant in the place of the tag, of a
specifier or of a member name.  Whether replaced specifiers still name a type,
and whether a replaced name is a keyword, is not examined: they are kept as
tokens. -/
def replaceDecl (env : MacroEnv) (d : StructDecl) : Except String StructDecl :=
  if macroReplace env "struct" = Repl.ident "struct" then
    match expectIdent (macroReplace env d.tag) with
    | Except.error e => Except.error e
    | Except.ok tag =>
      match replaceMembers env d.members with
      | Except.error e => Except.error e
      | Except.ok members => Except.ok (StructDecl.mk tag members)
  else
    Except.error expected_struct

/-- A structure declaration at file scope, written as `d`: its tokens undergo
macro replacement; the members must have different names and the tag must not
be declared with a member list already. -/
def declare (tu : TransUnit) (d : StructDecl) : Except String TransUnit :=
  match replaceDecl tu.macros d with
  | Except.error e => Except.error e
  | Except.ok r =>
    if (r.members.map Member.name).Nodup then
      if tu.structs.any (fun e => e.tag == r.tag) then
        Except.error (redefinition_of ++ r.tag)
      else
        Except.ok (TransUnit.mk tu.macros (r :: tu.structs))
    else
      Except.error duplicate_member

/-! ## The header -/

/-- The text of the `#error` directive. -/
def guard_message : String :=
  "Never use <bits/ioctl-types.h> directly; include <sys/ioctl.h> instead."

/- modem lines -/
/-- line enable -/
def TIOCM_LE : Repl := Repl.num 0x001
/-- data terminal ready -/
def TIOCM_DTR : Repl := Repl.num 0x002
/-- request to send -/
def TIOCM_RTS : Repl := Repl.num 0x004
/-- secondary transmit -/
def TIOCM_ST : Repl := Repl.num 0x010
/-- secondary receive -/
def TIOCM_SR : Repl := Repl.num 0x020
/-- clear to send -/
def TIOCM_CTS : Repl := Repl.num 0x040
/-- carrier detect -/
def TIOCM_CAR : Repl := Repl.num 0x100
/-- defined as the identifier `TIOCM_CAR` -/
def TIOCM_CD : Repl := Repl.ident "TIOCM_CAR"
/-- ring -/
def TIOCM_RNG : Repl := Repl.num 0x200
/-- defined as the identifier `TIOCM_RNG` -/
def TIOCM_RI : Repl := Repl.ident "TIOCM_RNG"
/-- data set ready -/
def TIOCM_DSR : Repl := Repl.num 0x400

/-- The `#define` lines under the comment "modem lines", in source order. -/
def modem_lines : List (String × Repl) :=
  [ ("TIOCM_LE", TIOCM_LE),
    ("TIOCM_DTR", TIOCM_DTR),
    ("TIOCM_RTS", TIOCM_RTS),
    ("TIOCM_ST", TIOCM_ST),
    ("TIOCM_SR", TIOCM_SR),
    ("TIOCM_CTS", TIOCM_CTS),
    ("TIOCM_CAR", TIOCM_CAR),
    ("TIOCM_CD", TIOCM_CD),
    ("TIOCM_RNG", TIOCM_RNG),
    ("TIOCM_RI", TIOCM_RI),
    ("TIOCM_DSR", TIOCM_DSR) ]

/- line disciplines -/
def N_TTY : Repl := Repl.num 0
def N_SLIP : Repl := Repl.num 1
def N_MOUSE : Repl := Repl.num 2
def N_PPP : Repl := Repl.num 3
def N_STRIP : Repl := Repl.num 4
def N_AX25 : Repl := Repl.num 5
/-- X.25 async -/
def N_X25 : Repl := Repl.num 6
def N_6PACK : Repl := Repl.num 7
/-- Mobitex module -/
def N_MASC : Repl := Repl.num 8
/-- Simatic R3964 module -/
def N_R3964 : Repl := Repl.num 9
/-- Profibus -/
def N_PROFIBUS_FDL : Repl := Repl.num 10
/-- the IR discipline ("Linux IR" in the header) -/
def N_IRDA : Repl := Repl.num 11
/-- SMS block mode -/
def N_SMSBLOCK : Repl := Repl.num 12
/-- synchronous HDLC -/
def N_HDLC : Repl := Repl.num 13
/-- synchronous PPP -/
def N_SYNC_PPP : Repl := Repl.num 14
/-- Bluetooth HCI UART -/
def N_HCI : Repl := Repl.num 15

/-- The `#define` lines under the comment "line disciplines", in source order. -/
def line_disciplines : List (String × Repl) :=
  [ ("N_TTY", N_TTY),
    ("N_SLIP", N_SLIP),
    ("N_MOUSE", N_MOUSE),
    ("N_PPP", N_PPP),
    ("N_STRIP", N_STRIP),
    ("N_AX25", N_AX25),
    ("N_X25", N_X25),
    ("N_6PACK", N_6PACK),
    ("N_MASC", N_MASC),
    ("N_R3964", N_R3964),
    ("N_PROFIBUS_FDL", N_PROFIBUS_FDL),
    ("N_IRDA", N_IRDA),
    ("N_SMSBLOCK", N_SMSBLOCK),
    ("N_HDLC", N_HDLC),
    ("N_SYNC_PPP", N_SYNC_PPP),
    ("N_HCI", N_HCI) ]

/-- Processing of the header in the translation unit `tu`.  `asm_ioctls_h` is
the processing of the kernel header `<asm/ioctls.h>`, which the header includes
and which is not part of it. -/
def ioctl_types_h (asm_ioctls_h : TransUnit → Except String TransUnit)
    (tu : TransUnit) : Except String TransUnit :=
  if defined tu.macros "_SYS_IOCTL_H" then
    match asm_ioctls_h tu with
    | Except.error e => Except.error e
    | Except.ok tu1 =>
      match declare tu1 winsize with
      | Except.error e => Except.error e
      | Except.ok tu2 => Except.ok (defineAll line_disciplines (defineAll modem_lines tu2))
  else
    Except.error guard_message

/-- The macros the header defines, as they stand in the macro table afterwards
(most recent first). -/
def header_macros : MacroEnv :=
  line_disciplines.reverse ++ modem_lines.reverse

/-- The translation unit of `<sys/ioctl.h>` at the point where it includes the
header: `_SYS_IOCTL_H` is defined (as `1`), nothing else is assumed. -/
def umbrella : TransUnit :=
  TransUnit.mk [("_SYS_IOCTL_H", Repl.num 1)] []

/-- The names defined under "modem lines", in source order. -/
def modem_names : List String :=
  modem_lines.map Prod.fst

/-- The names defined under "line disciplines", in source order. -/
def discipline_names : List String :=
  line_disciplines.map Prod.fst

/-- The modem-line names whose replacement list is an integer constant. -/
def flag_names : List String :=
  modem_lines.filterMap fun d =>
    match d.2 with
    | Repl.num _ => some d.1
    | Repl.ident _ => none

/-- The modem-line names whose replacement list is another name, each with the
name it is defined as. -/
def aliases : List (String × String) :=
  modem_lines.filterMap fun d =>
    match d.2 with
    | Repl.num _ => none
    | Repl.ident target => some (d.1, target)

/-- The value of a name in the header's own macro table. -/
def headerValue (name : String) : Option Nat :=
  expand header_macros 2 name

/-- The bits a flag name contributes to a mask: its value, or nothing when the
name has no integer value. -/
def flagBits (env : MacroEnv) (name : String) : Nat :=
  (macroValue env name).getD 0

/-- The modem-line mask `f1 | f2 | ...` built from the flags named in `S`. -/
def maskOf (env : MacroEnv) (S : Finset String) : Nat :=
  S.fold (fun a b => a ||| b) 0 (flagBits env)

/-- Size and alignment of `unsigned short int` in the Linux/MIPS ABIs (o32, n32
and n64 alike): two bytes, aligned to two bytes.  Supplied by the ABI, not by the
header. -/
def mips_abi : DataModel :=
  DataModel.mk (fun _ => 2) (fun _ => 2)

/-! ## Auxiliary facts about the macro table -/

theorem lookup_append_of_some {k : String} {b : Repl} :
    ∀ (l1 l2 : MacroEnv), List.lookup k l1 = some b → List.lookup k (l1 ++ l2) = some b
  | [], _, h => by simp at h
  | (k1, b1) :: l1, l2, h => by
    by_cases hk : k = k1
    · subst hk
      simpa [List.lookup] using h
    · have hb : (k == k1) = false := by simpa using hk
      simp only [List.cons_append, List.lookup, hb] at h ⊢
      exact lookup_append_of_some l1 l2 h

theorem expand_append (l1 l2 : MacroEnv) :
    ∀ (fuel : Nat) (name : String) (v : Nat),
      expand l1 fuel name = some v → expand (l1 ++ l2) fuel name = some v
  | 0, _, _, h => by simp [expand] at h
  | fuel + 1, name, v, h => by
    unfold expand at h ⊢
    cases hl : List.lookup name l1 with
    | none => simp [hl] at h
    | some r =>
      rw [lookup_append_of_some l1 l2 hl]
      rw [hl] at h
      cases r with
      | num n => simpa using h
      | ident next => exact expand_append l1 l2 fuel next v h

theorem expand_succ (env : MacroEnv) :
    ∀ (fuel : Nat) (name : String) (v : Nat),
      expand env fuel name = some v → expand env (fuel + 1) name = some v
  | 0, _, _, h => by simp [expand] at h
  | fuel + 1, name, v, h => by
    unfold expand at h
    unfold expand
    cases hl : List.lookup name env with
    | none => simp [hl] at h
    | some r =>
      rw [hl] at h
      cases r with
      | num n => simpa using h
      | ident next => exact expand_succ env fuel next v h

theorem expand_mono (env : MacroEnv) (name : String) (v : Nat) (fuel : Nat)
    (h : expand env fuel name = some v) :
    ∀ (extra : Nat), expand env (fuel + extra) name = some v
  | 0 => h
  | extra + 1 => expand_succ env (fuel + extra) name v (expand_mono env name v fuel h extra)

theorem defineAll_macros :
    ∀ (defs : List (String × Repl)) (tu : TransUnit),
      (defineAll defs tu).macros = defs.reverse ++ tu.macros
  | [], tu => by simp [defineAll]
  | d :: defs, tu => by
    have ih := defineAll_macros defs (define tu d.1 d.2)
    simp only [defineAll, List.foldl_cons] at ih ⊢
    rw [ih]
    simp [define]

theorem defineAll_structs :
    ∀ (defs : List (String × Repl)) (tu : TransUnit),
      (defineAll defs tu).structs = tu.structs
  | [], tu => by simp [defineAll]
  | d :: defs, tu => by
    have ih := defineAll_structs defs (define tu d.1 d.2)
    simp only [defineAll, List.foldl_cons] at ih ⊢
    rw [ih]
    simp [define]

/-- A declaration changes no macro. -/
theorem declare_macros (tu out : TransUnit) (d : StructDecl)
    (h : declare tu d = Except.ok out) : out.macros = tu.macros := by
  unfold declare at h
  cases hr : replaceDecl tu.macros d with
  | error e => simp [hr] at h
  | ok r =>
    simp only [hr] at h
    by_cases hn : (r.members.map Member.name).Nodup
    · rw [if_pos hn] at h
      by_cases hd : (tu.structs.any fun e => e.tag == r.tag) = true
      · rw [if_pos hd] at h
        cases h
      · rw [if_neg hd] at h
        cases h
        rfl
    · rw [if_neg hn] at h
      cases h

/-- What a successful processing of the header leaves behind. -/
theorem ioctl_types_h_ok (inc : TransUnit → Except String TransUnit) (tu out : TransUnit)
    (h : ioctl_types_h inc tu = Except.ok out) :
    ∃ tu1, defined tu.macros "_SYS_IOCTL_H" = true ∧ inc tu = Except.ok tu1 ∧
      out.macros = header_macros ++ tu1.macros ∧
      ∃ tu2, declare tu1 winsize = Except.ok tu2 ∧ out.structs = tu2.structs := by
  unfold ioctl_types_h at h
  by_cases hd : defined tu.macros "_SYS_IOCTL_H" = true
  · rw [if_pos hd] at h
    cases hi : inc tu with
    | error e => simp [hi] at h
    | ok tu1 =>
      cases hdec : declare tu1 winsize with
      | error e => simp [hi, hdec] at h
      | ok tu2 =>
        simp only [hi, hdec, Except.ok.injEq] at h
        refine ⟨tu1, hd, rfl, ?_, tu2, hdec, ?_⟩
        · rw [← h, defineAll_macros, defineAll_macros, declare_macros tu1 tu2 winsize hdec]
          simp [header_macros]
        · rw [← h, defineAll_structs, defineAll_structs]
  · rw [if_neg hd] at h
    cases h

/-- A macro of the header keeps the value it has in the header's own table,
whatever was defined before the header was processed. -/
theorem macroValue_of_header (inc : TransUnit → Except String TransUnit) (tu out : TransUnit)
    (h : ioctl_types_h inc tu = Except.ok out) (name : String) (v : Nat)
    (hv : expand header_macros 2 name = some v) :
    macroValue out.macros name = some v := by
  obtain ⟨tu1, _, _, hm, _⟩ := ioctl_types_h_ok inc tu out h
  have h2 : expand out.macros 2 name = some v := by
    rw [hm]
    exact expand_append header_macros tu1.macros 2 name v hv
  have hlen : out.macros.length + 1 = 2 + (out.macros.length - 1) := by
    have : 27 ≤ out.macros.length := by
      rw [hm]
      simp [header_macros, modem_lines, line_disciplines]
    omega
  unfold macroValue
  rw [hlen]
  exact expand_mono out.macros name v 2 h2 _

/-- Every name of a `#define` line of the header has the value of the header's
own table after processing. -/
theorem macroValue_eq_headerValue (inc : TransUnit → Except String TransUnit)
    (tu out : TransUnit) (h : ioctl_types_h inc tu = Except.ok out) (name : String)
    (hn : name ∈ modem_names ++ discipline_names) :
    macroValue out.macros name = headerValue name := by
  have hsome : ∀ n ∈ modem_names ++ discipline_names, (headerValue n).isSome = true := by
    decide
  obtain ⟨v, hv⟩ := Option.isSome_iff_exists.mp (hsome name hn)
  rw [hv]
  exact macroValue_of_header inc tu out h name v hv

/-- The header processed from `<sys/ioctl.h>` with an include that adds nothing. -/
theorem umbrella_ok :
    ioctl_types_h Except.ok umbrella =
      Except.ok (TransUnit.mk (header_macros ++ umbrella.macros) [winsize]) := by
  rfl

/-! ## The constants -/

/-- C2: the nine modem-line constants that are not aliases have the values
0x001, 0x002, 0x004, 0x010, 0x020, 0x040, 0x100, 0x200, 0x400; "request to send"
is 0x004.  Holds in every translation unit in which the header was processed. -/
theorem modem_line_values (inc : TransUnit → Except String TransUnit) (tu out : TransUnit)
    (h : ioctl_types_h inc tu = Except.ok out) :
    macroValue out.macros "TIOCM_LE" = some 0x001 ∧
    macroValue out.macros "TIOCM_DTR" = some 0x002 ∧
    macroValue out.macros "TIOCM_RTS" = some 0x004 ∧
    macroValue out.macros "TIOCM_ST" = some 0x010 ∧
    macroValue out.macros "TIOCM_SR" = some 0x020 ∧
    macroValue out.macros "TIOCM_CTS" = some 0x040 ∧
    macroValue out.macros "TIOCM_CAR" = some 0x100 ∧
    macroValue out.macros "TIOCM_RNG" = some 0x200 ∧
    macroValue out.macros "TIOCM_DSR" = some 0x400 := by
  refine ⟨?_, ?_, ?_, ?_, ?_, ?_, ?_, ?_, ?_⟩ <;>
    exact macroValue_of_header inc tu out h _ _ (by decide)

theorem modem_line_values_witness :
    ioctl_types_h Except.ok umbrella =
      Except.ok (TransUnit.mk (header_macros ++ umbrella.macros) [winsize]) ∧
    macroValue (header_macros ++ umbrella.macros) "TIOCM_LE" = some 0x001 ∧
    macroValue (header_macros ++ umbrella.macros) "TIOCM_DTR" = some 0x002 ∧
    macroValue (header_macros ++ umbrella.macros) "TIOCM_RTS" = some 0x004 ∧
    macroValue (header_macros ++ umbrella.macros) "TIOCM_ST" = some 0x010 ∧
    macroValue (header_macros ++ umbrella.macros) "TIOCM_SR" = some 0x020 ∧
    macroValue (header_macros ++ umbrella.macros) "TIOCM_CTS" = some 0x040 ∧
    macroValue (header_macros ++ umbrella.macros) "TIOCM_CAR" = some 0x100 ∧
    macroValue (header_macros ++ umbrella.macros) "TIOCM_RNG" = some 0x200 ∧
    macroValue (header_macros ++ umbrella.macros) "TIOCM_DSR" = some 0x400 :=
  ⟨umbrella_ok, modem_line_values Except.ok umbrella _ umbrella_ok⟩

/-- C3: the alias names resolve to the values of the names they are defined as:
TIOCM_CD and TIOCM_CAR are both 0x100, TIOCM_RI and TIOCM_RNG are both 0x200. -/
theorem alias_values (inc : TransUnit → Except String TransUnit) (tu out : TransUnit)
    (h : ioctl_types_h inc tu = Except.ok out) :
    macroValue out.macros "TIOCM_CD" = macroValue out.macros "TIOCM_CAR" ∧
    macroValue out.macros "TIOCM_CD" = some 0x100 ∧
    macroValue out.macros "TIOCM_RI" = macroValue out.macros "TIOCM_RNG" ∧
    macroValue out.macros "TIOCM_RI" = some 0x200 := by
  have hcd := macroValue_of_header inc tu out h "TIOCM_CD" 0x100 (by decide)
  have hcar := macroValue_of_header inc tu out h "TIOCM_CAR" 0x100 (by decide)
  have hri := macroValue_of_header inc tu out h "TIOCM_RI" 0x200 (by decide)
  have hrng := macroValue_of_header inc tu out h "TIOCM_RNG" 0x200 (by decide)
  exact ⟨hcd.trans hcar.symm, hcd, hri.trans hrng.symm, hri⟩

theorem alias_values_witness :
    ioctl_types_h Except.ok umbrella =
      Except.ok (TransUnit.mk (header_macros ++ umbrella.macros) [winsize]) ∧
    macroValue (header_macros ++ umbrella.macros) "TIOCM_CD" =
      macroValue (header_macros ++ umbrella.macros) "TIOCM_CAR" ∧
    macroValue (header_macros ++ umbrella.macros) "TIOCM_CD" = some 0x100 ∧
    macroValue (header_macros ++ umbrella.macros) "TIOCM_RI" =
      macroValue (header_macros ++ umbrella.macros) "TIOCM_RNG" ∧
    macroValue (header_macros ++ umbrella.macros) "TIOCM_RI" = some 0x200 :=
  ⟨umbrella_ok, alias_values Except.ok umbrella _ umbrella_ok⟩

/-- C6: every line-discipline name has its fixed value, N_TTY = 0 up to
N_HCI = 15 (the Bluetooth HCI UART discipline), and the i-th `N_*` definition of
the header, counting from 0, has the value i. -/
theorem discipline_values (inc : TransUnit → Except String TransUnit) (tu out : TransUnit)
    (h : ioctl_types_h inc tu = Except.ok out) :
    (List.map (macroValue out.macros)
        ["N_TTY", "N_SLIP", "N_MOUSE", "N_PPP", "N_STRIP", "N_AX25", "N_X25", "N_6PACK",
         "N_MASC", "N_R3964", "N_PROFIBUS_FDL", "N_IRDA", "N_SMSBLOCK", "N_HDLC",
         "N_SYNC_PPP", "N_HCI"] =
      List.map some [0, 1, 2, 3, 4, 5, 6, 7, 8, 9, 10, 11, 12, 13, 14, 15]) ∧
    macroValue out.macros "N_HCI" = some 15 ∧
    discipline_names.length = 16 ∧
    ∀ (i : Nat) (name : String), discipline_names.get? i = some name →
      macroValue out.macros name = some i := by
  have hall : ∀ n ∈ discipline_names, macroValue out.macros n = headerValue n := fun n hn =>
    macroValue_eq_headerValue inc tu out h n (List.mem_append_right _ hn)
  have hclosed : ∀ i ∈ List.range 16, ∀ n ∈ discipline_names,
      discipline_names.get? i = some n → headerValue n = some i := by
    decide
  refine ⟨?_, ?_, rfl, ?_⟩
  · have hm : List.map (macroValue out.macros) discipline_names =
        List.map headerValue discipline_names := List.map_congr_left hall
    have hc : List.map headerValue discipline_names =
        List.map some [0, 1, 2, 3, 4, 5, 6, 7, 8, 9, 10, 11, 12, 13, 14, 15] := by
      decide
    exact hm.trans hc
  · exact macroValue_of_header inc tu out h _ _ (by decide)
  · intro i name hi
    have hmem : name ∈ discipline_names := List.get?_mem hi
    have hlt : i < 16 := by
      have := (List.get?_eq_some.mp hi).1
      simpa [discipline_names, line_disciplines] using this
    rw [hall name hmem]
    exact hclosed i (List.mem_range.mpr hlt) name hmem hi

theorem discipline_values_witness :
    ioctl_types_h Except.ok umbrella =
      Except.ok (TransUnit.mk (header_macros ++ umbrella.macros) [winsize]) ∧
    ((List.map (macroValue (header_macros ++ umbrella.macros))
        ["N_TTY", "N_SLIP", "N_MOUSE", "N_PPP", "N_STRIP", "N_AX25", "N_X25", "N_6PACK",
         "N_MASC", "N_R3964", "N_PROFIBUS_FDL", "N_IRDA", "N_SMSBLOCK", "N_HDLC",
         "N_SYNC_PPP", "N_HCI"] =
      List.map some [0, 1, 2, 3, 4, 5, 6, 7, 8, 9, 10, 11, 12, 13, 14, 15]) ∧
    macroValue (header_macros ++ umbrella.macros) "N_HCI" = some 15 ∧
    discipline_names.length = 16 ∧
    ∀ (i : Nat) (name : String), discipline_names.get? i = some name →
      macroValue (header_macros ++ umbrella.macros) name = some i) :=
  ⟨umbrella_ok, discipline_values Except.ok umbrella _ umbrella_ok⟩

/-! ## The structure -/

/-- C1: `struct winsize` has exactly the four members ws_row, ws_col, ws_xpixel,
ws_ypixel, in this order, each an `unsigned short int`; where that type is two
bytes wide (values 0..65535) and aligned to one or two bytes, the members lie at
byte offsets 0, 2, 4, 6 without padding and the structure is 8 bytes long. -/
theorem winsize_layout (dm : DataModel)
    (hsize : dm.sizeof CType.unsigned_short_int = 2)
    (halign : dm.alignof CType.unsigned_short_int = 1 ∨
      dm.alignof CType.unsigned_short_int = 2) :
    winsize.members.map Member.name = ["ws_row", "ws_col", "ws_xpixel", "ws_ypixel"] ∧
    (∀ m ∈ winsize.members,
      m.type = CType.unsigned_short_int ∧ maxValue dm m.type = 65535) ∧
    offsets dm winsize = [("ws_row", 0), ("ws_col", 2), ("ws_xpixel", 4), ("ws_ypixel", 6)] ∧
    structSize dm winsize = 8 ∧
    padding dm winsize = 0 := by
  refine ⟨rfl, ?_, ?_, ?_, ?_⟩
  · intro m hm
    have ht : m.type = CType.unsigned_short_int := by
      simp only [winsize, List.mem_cons, List.mem_singleton, List.not_mem_nil, or_false] at hm
      rcases hm with hm | hm | hm | hm <;> rw [hm]
    refine ⟨ht, ?_⟩
    rw [ht]
    simp [maxValue, CHAR_BIT, hsize]
  · rcases halign with ha | ha <;>
      simp [offsets, layoutFrom, winsize, alignUp, hsize, ha]
  · rcases halign with ha | ha <;>
      simp [structSize, structAlign, endFrom, winsize, alignUp, hsize, ha]
  · rcases halign with ha | ha <;>
      simp [padding, structSize, structAlign, endFrom, winsize, alignUp, hsize, ha]

theorem winsize_layout_witness :
    mips_abi.sizeof CType.unsigned_short_int = 2 ∧
    (mips_abi.alignof CType.unsigned_short_int = 1 ∨
      mips_abi.alignof CType.unsigned_short_int = 2) ∧
    winsize.members.map Member.name = ["ws_row", "ws_col", "ws_xpixel", "ws_ypixel"] ∧
    (∀ m ∈ winsize.members,
      m.type = CType.unsigned_short_int ∧ maxValue mips_abi m.type = 65535) ∧
    offsets mips_abi winsize =
      [("ws_row", 0), ("ws_col", 2), ("ws_xpixel", 4), ("ws_ypixel", 6)] ∧
    structSize mips_abi winsize = 8 ∧
    padding mips_abi winsize = 0 :=
  ⟨rfl, Or.inr rfl, winsize_layout mips_abi rfl (Or.inr rfl)⟩

/-! ## The inclusion guard -/

/-- C5: the line-discipline identifiers form the range 0..15: every integer from
0 to 15 is the value of exactly one `N_*` name, no two `N_*` names have the same
value, and no `N_*` value lies outside 0..15. -/
theorem discipline_range (inc : TransUnit → Except String TransUnit) (tu out : TransUnit)
    (h : ioctl_types_h inc tu = Except.ok out) :
    (∀ i, i ≤ 15 →
      ∃! name, name ∈ discipline_names ∧ macroValue out.macros name = some i) ∧
    (∀ a ∈ discipline_names, ∀ b ∈ discipline_names,
      macroValue out.macros a = macroValue out.macros b → a = b) ∧
    (∀ a ∈ discipline_names, ∃ v, macroValue out.macros a = some v ∧ v ≤ 15) ∧
    discipline_names.Nodup := by
  have hall : ∀ n ∈ discipline_names, macroValue out.macros n = headerValue n := fun n hn =>
    macroValue_eq_headerValue inc tu out h n (List.mem_append_right _ hn)
  have hex : ∀ i ∈ List.range 16, ∃ n ∈ discipline_names, headerValue n = some i := by
    decide
  have hinj : ∀ a ∈ discipline_names, ∀ b ∈ discipline_names,
      headerValue a = headerValue b → a = b := by
    decide
  have hbound : ∀ a ∈ discipline_names, ∃ v ∈ List.range 16, headerValue a = some v := by
    decide
  refine ⟨?_, ?_, ?_, by decide⟩
  · intro i hi
    obtain ⟨n, hn, hv⟩ := hex i (List.mem_range.mpr (by omega))
    refine ⟨n, ⟨hn, (hall n hn).trans hv⟩, ?_⟩
    rintro m ⟨hm, hmv⟩
    apply hinj m hm n hn
    rw [← hall m hm, hmv, hv]
  · intro a ha b hb hab
    apply hinj a ha b hb
    rw [← hall a ha, ← hall b hb, hab]
  · intro a ha
    obtain ⟨v, hv, hav⟩ := hbound a ha
    exact ⟨v, (hall a ha).trans hav, by have := List.mem_range.mp hv; omega⟩

theorem discipline_range_witness :
    ioctl_types_h Except.ok umbrella =
      Except.ok (TransUnit.mk (header_macros ++ umbrella.macros) [winsize]) ∧
    ((∀ i, i ≤ 15 →
      ∃! name, name ∈ discipline_names ∧
        macroValue (header_macros ++ umbrella.macros) name = some i) ∧
    (∀ a ∈ discipline_names, ∀ b ∈ discipline_names,
      macroValue (header_macros ++ umbrella.macros) a =
        macroValue (header_macros ++ umbrella.macros) b → a = b) ∧
    (∀ a ∈ discipline_names,
      ∃ v, macroValue (header_macros ++ umbrella.macros) a = some v ∧ v ≤ 15) ∧
    discipline_names.Nodup) :=
  ⟨umbrella_ok, discipline_range Except.ok umbrella _ umbrella_ok⟩

/-- C4: every one of the eleven `TIOCM_*` values is a power of two; two different
`TIOCM_*` names have equal values exactly when they are one of the two alias
pairs (TIOCM_CD, TIOCM_CAR) and (TIOCM_RI, TIOCM_RNG), and values that differ
share no bit. -/
theorem modem_flags_disjoint (inc : TransUnit → Except String TransUnit) (tu out : TransUnit)
    (h : ioctl_types_h inc tu = Except.ok out) :
    modem_names.length = 11 ∧
    (∀ a ∈ modem_names, ∃ k, macroValue out.macros a = some (2 ^ k)) ∧
    aliases = [("TIOCM_CD", "TIOCM_CAR"), ("TIOCM_RI", "TIOCM_RNG")] ∧
    (∀ a ∈ modem_names, ∀ b ∈ modem_names, a ≠ b →
      (macroValue out.macros a = macroValue out.macros b ↔
        ((a, b) ∈ aliases ∨ (b, a) ∈ aliases))) ∧
    (∀ a ∈ modem_names, ∀ b ∈ modem_names, ∀ x y,
      macroValue out.macros a = some x → macroValue out.macros b = some y →
      x ≠ y → x &&& y = 0) := by
  have hall : ∀ n ∈ modem_names, macroValue out.macros n = headerValue n := fun n hn =>
    macroValue_eq_headerValue inc tu out h n (List.mem_append_left _ hn)
  have hpow : ∀ a ∈ modem_names, ∃ k ∈ List.range 11, headerValue a = some (2 ^ k) := by
    decide
  have halias : ∀ a ∈ modem_names, ∀ b ∈ modem_names, a ≠ b →
      (headerValue a = headerValue b ↔ ((a, b) ∈ aliases ∨ (b, a) ∈ aliases)) := by
    decide
  have hbits : ∀ a ∈ modem_names, ∀ b ∈ modem_names, headerValue a ≠ headerValue b →
      (headerValue a).getD 0 &&& (headerValue b).getD 0 = 0 := by
    decide
  refine ⟨rfl, ?_, rfl, ?_, ?_⟩
  · intro a ha
    obtain ⟨k, _, hk⟩ := hpow a ha
    exact ⟨k, (hall a ha).trans hk⟩
  · intro a ha b hb hab
    rw [hall a ha, hall b hb]
    exact halias a ha b hb hab
  · intro a ha b hb x y hx hy hxy
    rw [hall a ha] at hx
    rw [hall b hb] at hy
    have hne : headerValue a ≠ headerValue b := by
      rw [hx, hy]
      intro he
      exact hxy (Option.some.inj he)
    have := hbits a ha b hb hne
    rw [hx, hy] at this
    simpa using this

theorem modem_flags_disjoint_witness :
    ioctl_types_h Except.ok umbrella =
      Except.ok (TransUnit.mk (header_macros ++ umbrella.macros) [winsize]) ∧
    (modem_names.length = 11 ∧
    (∀ a ∈ modem_names, ∃ k, macroValue (header_macros ++ umbrella.macros) a = some (2 ^ k)) ∧
    aliases = [("TIOCM_CD", "TIOCM_CAR"), ("TIOCM_RI", "TIOCM_RNG")] ∧
    (∀ a ∈ modem_names, ∀ b ∈ modem_names, a ≠ b →
      (macroValue (header_macros ++ umbrella.macros) a =
          macroValue (header_macros ++ umbrella.macros) b ↔
        ((a, b) ∈ aliases ∨ (b, a) ∈ aliases))) ∧
    (∀ a ∈ modem_names, ∀ b ∈ modem_names, ∀ x y,
      macroValue (header_macros ++ umbrella.macros) a = some x →
      macroValue (header_macros ++ umbrella.macros) b = some y →
      x ≠ y → x &&& y = 0)) :=
  ⟨umbrella_ok, modem_flags_disjoint Except.ok umbrella _ umbrella_ok⟩

/-- C8: the modem-line namespace consists of exactly the 11 names TIOCM_LE,
TIOCM_DTR, TIOCM_RTS, TIOCM_ST, TIOCM_SR, TIOCM_CTS, TIOCM_CAR, TIOCM_CD,
TIOCM_RNG, TIOCM_RI, TIOCM_DSR, each a single bit of a mask; exactly two of them
(TIOCM_CD and TIOCM_RI) are aliases, and the 11 names have 9 distinct values. -/
theorem modem_namespace (inc : TransUnit → Except String TransUnit) (tu out : TransUnit)
    (h : ioctl_types_h inc tu = Except.ok out) :
    modem_names =
      ["TIOCM_LE", "TIOCM_DTR", "TIOCM_RTS", "TIOCM_ST", "TIOCM_SR", "TIOCM_CTS",
       "TIOCM_CAR", "TIOCM_CD", "TIOCM_RNG", "TIOCM_RI", "TIOCM_DSR"] ∧
    modem_names.Nodup ∧
    modem_names.length = 11 ∧
    (∀ a ∈ modem_names, ∃ k, macroValue out.macros a = some (2 ^ k)) ∧
    aliases.map Prod.fst = ["TIOCM_CD", "TIOCM_RI"] ∧
    (∀ a ∈ modem_names, a ∈ aliases.map Prod.fst ∨ a ∈ flag_names) ∧
    ((modem_names.map (macroValue out.macros)).dedup.length = 9) := by
  have hall : ∀ n ∈ modem_names, macroValue out.macros n = headerValue n := fun n hn =>
    macroValue_eq_headerValue inc tu out h n (List.mem_append_left _ hn)
  have hpow : ∀ a ∈ modem_names, ∃ k ∈ List.range 11, headerValue a = some (2 ^ k) := by
    decide
  refine ⟨rfl, by decide, rfl, ?_, rfl, by decide, ?_⟩
  · intro a ha
    obtain ⟨k, _, hk⟩ := hpow a ha
    exact ⟨k, (hall a ha).trans hk⟩
  · have hm : List.map (macroValue out.macros) modem_names =
        List.map headerValue modem_names := List.map_congr_left hall
    rw [hm]
    decide

theorem modem_namespace_witness :
    ioctl_types_h Except.ok umbrella =
      Except.ok (TransUnit.mk (header_macros ++ umbrella.macros) [winsize]) ∧
    (modem_names =
      ["TIOCM_LE", "TIOCM_DTR", "TIOCM_RTS", "TIOCM_ST", "TIOCM_SR", "TIOCM_CTS",
       "TIOCM_CAR", "TIOCM_CD", "TIOCM_RNG", "TIOCM_RI", "TIOCM_DSR"] ∧
    modem_names.Nodup ∧
    modem_names.length = 11 ∧
    (∀ a ∈ modem_names, ∃ k, macroValue (header_macros ++ umbrella.macros) a = some (2 ^ k)) ∧
    aliases.map Prod.fst = ["TIOCM_CD", "TIOCM_RI"] ∧
    (∀ a ∈ modem_names, a ∈ aliases.map Prod.fst ∨ a ∈ flag_names) ∧
    ((modem_names.map (macroValue (header_macros ++ umbrella.macros))).dedup.length = 9)) :=
  ⟨umbrella_ok, modem_namespace Except.ok umbrella _ umbrella_ok⟩


/-! ## Masks built from the modem-line flags -/

/-- Two numbers without a common bit add up to their bitwise OR. -/
theorem or_eq_add_of_and_eq_zero (a b : Nat) (h : a &&& b = 0) : a ||| b = a + b := by
  have hw : a + b < 2 ^ (a + b) := Nat.lt_two_pow _
  have ha : a < 2 ^ (a + b) := by omega
  have hb : b < 2 ^ (a + b) := by omega
  have hz : BitVec.ofNat (a + b) a &&& BitVec.ofNat (a + b) b = 0#(a + b) := by
    apply BitVec.eq_of_toNat_eq
    simp [BitVec.toNat_and, Nat.mod_eq_of_lt ha, Nat.mod_eq_of_lt hb, h]
  have key := congrArg BitVec.toNat
    (BitVec.add_eq_or_of_and_eq_zero (BitVec.ofNat (a + b) a) (BitVec.ofNat (a + b) b) hz)
  simp only [BitVec.toNat_add, BitVec.toNat_or, BitVec.toNat_ofNat, Nat.mod_eq_of_lt ha,
    Nat.mod_eq_of_lt hb, Nat.mod_eq_of_lt hw] at key
  exact key.symm

theorem flagBits_eq (inc : TransUnit → Except String TransUnit) (tu out : TransUnit)
    (h : ioctl_types_h inc tu = Except.ok out) (f : String) (hf : f ∈ flag_names) :
    flagBits out.macros f = (headerValue f).getD 0 := by
  have hmem : ∀ n ∈ flag_names, n ∈ modem_names ++ discipline_names := by decide
  unfold flagBits
  rw [macroValue_eq_headerValue inc tu out h f (hmem f hf)]

theorem maskOf_insert (env : MacroEnv) (g : String) (S : Finset String) (hg : g ∉ S) :
    maskOf env (insert g S) = flagBits env g ||| maskOf env S := by
  unfold maskOf
  rw [Finset.fold_insert hg]

theorem maskOf_and (inc : TransUnit → Except String TransUnit) (tu out : TransUnit)
    (h : ioctl_types_h inc tu = Except.ok out) (f : String) (hf : f ∈ flag_names) :
    ∀ (S : Finset String), S ⊆ flag_names.toFinset →
      maskOf out.macros S &&& flagBits out.macros f =
        if f ∈ S then flagBits out.macros f else 0 := by
  have hpair : ∀ a ∈ flag_names, ∀ b ∈ flag_names,
      (headerValue a).getD 0 &&& (headerValue b).getD 0 =
        if b = a then (headerValue b).getD 0 else 0 := by
    decide
  intro S
  induction S using Finset.induction_on with
  | empty => intro _; simp [maskOf]
  | insert hg ih =>
    rename_i g S
    intro hsub
    have hgmem : g ∈ flag_names := by
      have := hsub (Finset.mem_insert_self g S)
      simpa using this
    have hS : S ⊆ flag_names.toFinset := fun x hx => hsub (Finset.mem_insert_of_mem hx)
    rw [maskOf_insert _ _ _ hg, Nat.and_distrib_right, ih hS,
      flagBits_eq inc tu out h g hgmem, flagBits_eq inc tu out h f hf, hpair g hgmem f hf]
    by_cases hfg : f = g
    · subst hfg
      simp [hg]
    · by_cases hfS : f ∈ S
      · simp [hfg, hfS]
      · simp [hfg, hfS]

theorem maskOf_sum (inc : TransUnit → Except String TransUnit) (tu out : TransUnit)
    (h : ioctl_types_h inc tu = Except.ok out) :
    ∀ (S : Finset String), S ⊆ flag_names.toFinset →
      maskOf out.macros S = S.sum (flagBits out.macros) := by
  intro S
  induction S using Finset.induction_on with
  | empty => intro _; simp [maskOf]
  | insert hg ih =>
    rename_i g S
    intro hsub
    have hgmem : g ∈ flag_names := by
      have := hsub (Finset.mem_insert_self g S)
      simpa using this
    have hS : S ⊆ flag_names.toFinset := fun x hx => hsub (Finset.mem_insert_of_mem hx)
    have hdisj : flagBits out.macros g &&& maskOf out.macros S = 0 := by
      rw [Nat.and_comm, maskOf_and inc tu out h g hgmem S hS, if_neg hg]
    rw [maskOf_insert _ _ _ hg, or_eq_add_of_and_eq_zero _ _ hdisj, Finset.sum_insert hg, ih hS]

theorem maskOf_and_clear (inc : TransUnit → Except String TransUnit) (tu out : TransUnit)
    (h : ioctl_types_h inc tu = Except.ok out) (bit : Nat)
    (hbit : ∀ f ∈ flag_names, (headerValue f).getD 0 &&& bit = 0) :
    ∀ (S : Finset String), S ⊆ flag_names.toFinset → maskOf out.macros S &&& bit = 0 := by
  intro S
  induction S using Finset.induction_on with
  | empty => intro _; simp [maskOf]
  | insert hg ih =>
    rename_i g S
    intro hsub
    have hgmem : g ∈ flag_names := by
      have := hsub (Finset.mem_insert_self g S)
      simpa using this
    have hS : S ⊆ flag_names.toFinset := fun x hx => hsub (Finset.mem_insert_of_mem hx)
    rw [maskOf_insert _ _ _ hg, Nat.and_distrib_right, ih hS,
      flagBits_eq inc tu out h g hgmem, hbit g hgmem]
    rfl

/-- C10: a modem-line mask built from the header's flags decodes back to the
lines that were set.  For every subset S of the nine flags with an integer
replacement list and its mask m (the bitwise OR of the members): a flag f of the
nine has (m AND f) non-zero exactly when f is in S; a subset with the same mask
is the same subset; m is the sum of the members; m is at most 0x777 and its bits
0x008 and 0x080 are clear. -/
theorem mask_roundtrip (inc : TransUnit → Except String TransUnit) (tu out : TransUnit)
    (h : ioctl_types_h inc tu = Except.ok out)
    (S : Finset String) (hS : S ⊆ flag_names.toFinset) :
    flag_names =
      ["TIOCM_LE", "TIOCM_DTR", "TIOCM_RTS", "TIOCM_ST", "TIOCM_SR", "TIOCM_CTS",
       "TIOCM_CAR", "TIOCM_RNG", "TIOCM_DSR"] ∧
    (∀ f ∈ flag_names, macroValue out.macros f = some (flagBits out.macros f)) ∧
    (∀ f ∈ flag_names, (maskOf out.macros S &&& flagBits out.macros f ≠ 0 ↔ f ∈ S)) ∧
    (∀ T : Finset String, T ⊆ flag_names.toFinset →
      maskOf out.macros T = maskOf out.macros S → T = S) ∧
    maskOf out.macros S = S.sum (flagBits out.macros) ∧
    maskOf out.macros S ≤ 0x777 ∧
    maskOf out.macros S &&& 0x008 = 0 ∧
    maskOf out.macros S &&& 0x080 = 0 := by
  have hmem : ∀ n ∈ flag_names, n ∈ modem_names ++ discipline_names := by decide
  have hnz : ∀ f ∈ flag_names, (headerValue f).getD 0 ≠ 0 := by decide
  have hsome : ∀ f ∈ flag_names, headerValue f = some ((headerValue f).getD 0) := by decide
  have hdecode : ∀ (T : Finset String), T ⊆ flag_names.toFinset → ∀ f ∈ flag_names,
      (maskOf out.macros T &&& flagBits out.macros f ≠ 0 ↔ f ∈ T) := by
    intro T hT f hf
    rw [maskOf_and inc tu out h f hf T hT]
    by_cases hfT : f ∈ T
    · simp only [hfT, if_true, iff_true]
      rw [flagBits_eq inc tu out h f hf]
      exact hnz f hf
    · simp [hfT]
  refine ⟨rfl, ?_, hdecode S hS, ?_, maskOf_sum inc tu out h S hS, ?_, ?_, ?_⟩
  · intro f hf
    rw [flagBits_eq inc tu out h f hf, macroValue_eq_headerValue inc tu out h f (hmem f hf)]
    exact hsome f hf
  · intro T hT hmask
    ext x
    constructor
    · intro hx
      have hxf : x ∈ flag_names := by simpa using hT hx
      have := (hdecode T hT x hxf).mpr hx
      rw [hmask] at this
      exact (hdecode S hS x hxf).mp this
    · intro hx
      have hxf : x ∈ flag_names := by simpa using hS hx
      have := (hdecode S hS x hxf).mpr hx
      rw [← hmask] at this
      exact (hdecode T hT x hxf).mp this
  · rw [maskOf_sum inc tu out h S hS]
    have hle := Finset.sum_le_sum_of_subset (f := flagBits out.macros) hS
    have hnodup : flag_names.Nodup := by decide
    have htotal : flag_names.toFinset.sum (flagBits out.macros) = 0x777 := by
      rw [List.sum_toFinset _ hnodup]
      have hm : List.map (flagBits out.macros) flag_names =
          List.map (fun f => (headerValue f).getD 0) flag_names :=
        List.map_congr_left (fun f hf => flagBits_eq inc tu out h f hf)
      rw [hm]
      decide
    exact le_of_le_of_eq hle htotal
  · exact maskOf_and_clear inc tu out h 0x008 (by decide) S hS
  · exact maskOf_and_clear inc tu out h 0x080 (by decide) S hS

theorem mask_roundtrip_witness :
    ioctl_types_h Except.ok umbrella =
      Except.ok (TransUnit.mk (header_macros ++ umbrella.macros) [winsize]) ∧
    ({"TIOCM_DTR", "TIOCM_RTS"} : Finset String) ⊆ flag_names.toFinset ∧
    (flag_names =
      ["TIOCM_LE", "TIOCM_DTR", "TIOCM_RTS", "TIOCM_ST", "TIOCM_SR", "TIOCM_CTS",
       "TIOCM_CAR", "TIOCM_RNG", "TIOCM_DSR"] ∧
    (∀ f ∈ flag_names,
      macroValue (header_macros ++ umbrella.macros) f =
        some (flagBits (header_macros ++ umbrella.macros) f)) ∧
    (∀ f ∈ flag_names,
      (maskOf (header_macros ++ umbrella.macros) {"TIOCM_DTR", "TIOCM_RTS"} &&&
          flagBits (header_macros ++ umbrella.macros) f ≠ 0 ↔
        f ∈ ({"TIOCM_DTR", "TIOCM_RTS"} : Finset String))) ∧
    (∀ T : Finset String, T ⊆ flag_names.toFinset →
      maskOf (header_macros ++ umbrella.macros) T =
        maskOf (header_macros ++ umbrella.macros) {"TIOCM_DTR", "TIOCM_RTS"} →
      T = {"TIOCM_DTR", "TIOCM_RTS"}) ∧
    maskOf (header_macros ++ umbrella.macros) {"TIOCM_DTR", "TIOCM_RTS"} =
      Finset.sum {"TIOCM_DTR", "TIOCM_RTS"} (flagBits (header_macros ++ umbrella.macros)) ∧
    maskOf (header_macros ++ umbrella.macros) {"TIOCM_DTR", "TIOCM_RTS"} ≤ 0x777 ∧
    maskOf (header_macros ++ umbrella.macros) {"TIOCM_DTR", "TIOCM_RTS"} &&& 0x008 = 0 ∧
    maskOf (header_macros ++ umbrella.macros) {"TIOCM_DTR", "TIOCM_RTS"} &&& 0x080 = 0) :=
  ⟨umbrella_ok, by decide,
    mask_roundtrip Except.ok umbrella _ umbrella_ok {"TIOCM_DTR", "TIOCM_RTS"} (by decide)⟩

end IoctlTypes
